import Mathlib

/-!
Verification of the nwws-oi client library.

This development gives a shallow embedding of the library's decoder
(`src/message.rs`), its receive loop (`src/connection.rs`), its supervising
reconnect loop (`src/stream.rs`) and its configuration (`src/config.rs`),
and proves the specified properties about those definitions.

Message bodies are modelled as `List Char`; attribute names and values as
`String`. The external RFC 3339 timestamp parser (the chrono library) is
modelled as an arbitrary function parameter `pts : String → Option Int`,
since the decoder's logic only depends on whether a parse succeeds.

The file is organized as definitions first, then lemmas and theorems.
-/

namespace NwwsOi

/-! ### Body text scanners, from `src/message.rs` lines 77-94

`countNL` models `message.matches("\n").count()`, `countNLNL` models
`message.matches("\n\n").count()` (non-overlapping, left to right), and
`collapseNLNL` models `message.replace("\n\n", "\n")` (each non-overlapping
occurrence replaced once, in a single left-to-right pass). -/

def countNL : List Char → Nat
  | [] => 0
  | c :: rest => (if c = '\n' then 1 else 0) + countNL rest

def countNLNL : List Char → Nat
  | [] => 0
  | [_] => 0
  | c :: d :: rest =>
    if c = '\n' then
      if d = '\n' then countNLNL rest + 1 else countNLNL (d :: rest)
    else countNLNL (d :: rest)

def collapseNLNL : List Char → List Char
  | [] => []
  | [c] => [c]
  | c :: d :: rest =>
    if c = '\n' then
      if d = '\n' then '\n' :: collapseNLNL rest else c :: collapseNLNL (d :: rest)
    else c :: collapseNLNL (d :: rest)

/-- The newline-doubling normalization of `src/message.rs` lines 79-83:
if the count of `"\n"` occurrences equals twice the count of `"\n\n"`
occurrences, replace every `"\n\n"` with `"\n"`; otherwise leave the body
unchanged. -/
def normalizeBody (m : List Char) : List Char :=
  if countNL m = 2 * countNLNL m then collapseNLNL m else m

/-- Modelled from the spec: the upstream corruption in which every single
newline of a body has been replaced with two newlines.  Used only to state
that normalization undoes exactly this transformation. -/
def doubleNL : List Char → List Char
  | [] => []
  | c :: rest => if c = '\n' then '\n' :: '\n' :: doubleNL rest else c :: doubleNL rest

/-! ### Legacy (LDM) sequence extraction, from `src/message.rs` lines 85-94

`splitFirstNL` splits a body at its first newline; composing it twice gives
the `message.splitn(3, '\n')` decomposition used by the source.  `parseU32`
models Rust's `str::parse::<u32>`: an optional leading `'+'`, then one or
more ASCII decimal digits, with the value required to fit in 32 bits. -/

def splitFirstNL : List Char → Option (List Char × List Char)
  | [] => none
  | c :: rest =>
    if c = '\n' then some ([], rest)
    else (splitFirstNL rest).map (fun p => (c :: p.1, p.2))

def parseU32 (s : List Char) : Option Nat :=
  let digits := match s with
    | '+' :: rest => rest
    | _ => s
  if digits = [] then none
  else if digits.all (fun c => c.isDigit) then
    let n := digits.foldl (fun acc c => acc * 10 + (c.toNat - 48)) 0
    if n < 4294967296 then some n else none
  else none

/-- The LDM-sequence-number extraction of `src/message.rs` lines 86-94:
split the body at its first two newlines; when the first part is empty and
the second parses as a `u32`, return that number and the remainder;
otherwise return no number and the body unmodified. -/
def ldmSplit (m : List Char) : Option Nat × List Char :=
  match splitFirstNL m with
  | none => (none, m)
  | some (p1, r1) =>
    match splitFirstNL r1 with
    | none => (none, m)
    | some (p2, rest) =>
      if p1 = [] then
        match parseU32 p2 with
        | some n => (some n, rest)
        | none => (none, m)
      else (none, m)

/-! ### The decoder, from `src/message.rs` lines 54-116

An XMPP element is modelled by its name, namespace, attribute list and text
content; an XMPP message by its subtype and payload elements.  The external
RFC 3339 parser `chrono::DateTime::parse_from_rfc3339` is a function
parameter `pts`, with parsed timestamps modelled as `Int`. -/

inductive MessageType
  | Chat
  | Error
  | Groupchat
  | Headline
  | Normal
deriving DecidableEq

structure Element where
  name : String
  ns : String
  attrs : List (String × String)
  body : List Char
deriving DecidableEq

/-- Models `xmpp_parsers::Element::is(name, namespace)`. -/
def Element.isNamed (e : Element) (n nsp : String) : Bool :=
  e.name == n && e.ns == nsp

/-- Models `xmpp_parsers::Element::attr(key)`: the value of the first
attribute with the given key, if any. -/
def Element.attr (e : Element) (k : String) : Option String :=
  (e.attrs.find? (fun a => a.1 == k)).map (fun a => a.2)

structure XmppMessage where
  type_ : MessageType
  payloads : List Element
deriving DecidableEq

/-- The decoded bulletin, `Message` of `src/message.rs` lines 6-41. -/
structure Message where
  ttaaii : String
  cccc : String
  awips_id : Option String
  issue : Int
  id : String
  delay_stamp : Option Int
  ldm_sequence_number : Option Nat
  message : List Char
deriving DecidableEq

/-- The optional origination-delay timestamp of `src/message.rs` lines
62-67: the `stamp` attribute of a `delay` element in the `urn:xmpp:delay`
namespace, parsed with `pts`; any missing piece or parse failure yields
`none`. -/
def delayOf (pts : String → Option Int) (value : XmppMessage) : Option Int :=
  ((value.payloads.find? (fun p => p.isNamed "delay" "urn:xmpp:delay")).bind
    (fun d => d.attr "stamp")).bind pts

/-- The decoder `TryFrom<xmpp_parsers::message::Message> for Message` of
`src/message.rs` lines 57-115, returning `none` where the source returns
`Err`. -/
def tryFromMessage (pts : String → Option Int) (value : XmppMessage) : Option Message :=
  if value.type_ ≠ MessageType.Groupchat then none
  else
    let delay_stamp := delayOf pts value
    match value.payloads.find? (fun p => p.isNamed "x" "nwws-oi") with
    | none => none
    | some oi =>
      let message := normalizeBody oi.body
      let lm := ldmSplit message
      let ldm_sequence_number := lm.1
      let message := lm.2
      match oi.attr "awipsid", oi.attr "cccc", oi.attr "id",
          (oi.attr "issue").map pts, oi.attr "ttaaii" with
      | some awipsid, some cccc, some id, some (some issue), some ttaaii =>
        some { ttaaii := ttaaii, cccc := cccc,
               awips_id := if awipsid.length > 0 then some awipsid else none,
               issue := issue, id := id, delay_stamp := delay_stamp,
               ldm_sequence_number := ldm_sequence_number, message := message }
      | _, _, _, _, _ => none

/-! ### Concrete sample inputs, used only by witnesses -/

/-- A concrete timestamp parser accepting everything. -/
def pts0 : String → Option Int := fun _ => some 0

/-- A payload element missing the `cccc`, `id`, `issue` and `ttaaii`
attributes. -/
def oiMissing0 : Element :=
  { name := "x", ns := "nwws-oi", attrs := [("awipsid", "")], body := [] }

/-- A room-broadcast unit whose payload element misses required attributes. -/
def xmsgMissing0 : XmppMessage :=
  { type_ := MessageType.Groupchat, payloads := [oiMissing0] }

/-- A one-to-one (non-broadcast) unit. -/
def xmsgChat0 : XmppMessage := { type_ := MessageType.Chat, payloads := [] }

/-! ### Errors and the supervising reconnect loop, from `src/error.rs` and `src/stream.rs`

The supervisor's behaviour is modelled as the trace of channel sends,
sleeps and spawned teardowns that `run`/`run_once` perform, as a function
of the outcome of each connect attempt.  The underlying cause payloads of
the error variants do not influence the supervisor's branching and are
omitted. -/

inductive ConnErr
  | Configuration
  | Credentials
  | Network
  | XmppParseError
  | StreamEnded
deriving DecidableEq

inductive ConnectionState
  | Connecting
  | Connected
  | Disconnected
deriving DecidableEq

inductive StreamEvent
  | connectionState (s : ConnectionState)
  | error (e : ConnErr)
  | message (m : Message)
deriving DecidableEq

inductive TraceItem
  | emit (e : StreamEvent)
  | sleep (secs : Nat)
  | spawnEnd
deriving DecidableEq

/-- One `next_message` outcome observed while draining a session. -/
inductive SessionItem
  | msg (m : Message)
  | fail (e : ConnErr)
deriving DecidableEq

/-- The connect timeout of `src/stream.rs` line 62. -/
def connectTimeoutSecs : Nat := 75

/-- The unconditional floor delay of `src/stream.rs` line 53. -/
def minimumDelaySecs : Nat := 5

/-- The retry cooldown chosen by `src/stream.rs` lines 71-74. -/
def backoffSecs (e : ConnErr) : Nat :=
  match e with
  | ConnErr.Configuration | ConnErr.Credentials => 300
  | _ => 10

/-- The outcome of `tokio::time::timeout(75s, Connection::new(config))`
in `src/stream.rs` line 62: timed out, failed with a classified error, or
connected to a session that yields the given `next_message` outcomes. -/
inductive AttemptOutcome
  | timedOut
  | failed (e : ConnErr)
  | connected (session : List SessionItem)
deriving DecidableEq

/-- The drain loop of `src/stream.rs` lines 95-107: each successful
`next_message` is sent as a `Message` event; the first failure sends the
`Error` event and `Disconnected`, spawns the session teardown without
awaiting it, and returns to the outer loop. -/
def drainTrace : List SessionItem → List TraceItem
  | [] => []
  | SessionItem.msg m :: rest => TraceItem.emit (StreamEvent.message m) :: drainTrace rest
  | SessionItem.fail e :: _ =>
    [TraceItem.emit (StreamEvent.error e),
     TraceItem.emit (StreamEvent.connectionState ConnectionState.Disconnected),
     TraceItem.spawnEnd]

/-- `run_once` of `src/stream.rs` lines 57-108 as a trace. -/
def runOnceTrace : AttemptOutcome → List TraceItem
  | AttemptOutcome.connected items =>
    TraceItem.emit (StreamEvent.connectionState ConnectionState.Connected) :: drainTrace items
  | AttemptOutcome.failed e =>
    [TraceItem.emit (StreamEvent.error e),
     TraceItem.emit (StreamEvent.connectionState ConnectionState.Disconnected),
     TraceItem.sleep (backoffSecs e)]
  | AttemptOutcome.timedOut =>
    [TraceItem.emit (StreamEvent.connectionState ConnectionState.Disconnected)]

/-- `run` of `src/stream.rs` lines 43-55 as a trace over a finite list of
attempt outcomes: emit `Connecting`, run the attempt once, sleep the
5-second floor, repeat. -/
def runTrace : List AttemptOutcome → List TraceItem
  | [] => []
  | a :: rest =>
    TraceItem.emit (StreamEvent.connectionState ConnectionState.Connecting) ::
      (runOnceTrace a ++ TraceItem.sleep minimumDelaySecs :: runTrace rest)

/-! ### The receive loop, from `src/connection.rs` lines 122-188 -/

inductive IqPayload
  | get
  | set
  | result
  | err (etype : String) (condition : String)
deriving DecidableEq

structure Iq where
  from_ : Option String
  to_ : Option String
  id : String
  payload : IqPayload
deriving DecidableEq

/-- The reply stanza of `src/connection.rs` lines 166-180: same id,
from/to swapped, error type cancel, condition service-unavailable. -/
def serviceUnavailableReply (q : Iq) : Iq :=
  { from_ := q.to_, to_ := q.from_, id := q.id,
    payload := IqPayload.err "cancel" "service-unavailable" }

/-- `handle_iq` of `src/connection.rs` lines 150-188: the replies it
sends (one for a get/set request, none otherwise). -/
def handleIq (q : Iq) : List Iq :=
  match q.payload with
  | IqPayload.get | IqPayload.set => [serviceUnavailableReply q]
  | _ => []

/-- A raw incoming unit, classified the way `next_message` classifies
elements by name and namespace. -/
inductive Stanza
  | msg (m : XmppMessage)
  | iq (q : Iq)
  | presence
  | other
deriving DecidableEq

/-- `Connection::next_message` of `src/connection.rs` lines 122-148 over a
finite list of incoming units: the replies sent along the way and the
first successfully decoded message (`none` when the stream ends first). -/
def nextMessage (pts : String → Option Int) : List Stanza → List Iq × Option Message
  | [] => ([], none)
  | Stanza.msg m :: rest =>
    match tryFromMessage pts m with
    | some out => ([], some out)
    | none => nextMessage pts rest
  | Stanza.iq q :: rest =>
    let tail := nextMessage pts rest
    (handleIq q ++ tail.1, tail.2)
  | Stanza.presence :: rest => nextMessage pts rest
  | Stanza.other :: rest => nextMessage pts rest

/-- A concrete get request, used only by witnesses. -/
def iq0 : Iq :=
  { from_ := some "sender@example", to_ := some "client@example",
    id := "42", payload := IqPayload.get }

/-! ### The bounded event channel

`Stream::new` (`src/stream.rs` line 16) creates the single
`tokio::sync::mpsc::channel` with capacity 32.  The channel implementation
is external to the repository, so its hand-off discipline is modelled from
the spec: a send on a full channel suspends the producer, a receive is
FIFO and unblocks exactly one pending send. -/

/-- The channel capacity passed by `Stream::new` in `src/stream.rs` line 16. -/
def streamChannelCapacity : Nat := 32

structure ChanState (α : Type) where
  cap : Nat
  buf : List α
  pending : List α
deriving DecidableEq

/-- Modelled from the spec: a send appends to the buffer when there is
room; otherwise the producer suspends (is queued as pending) and the send
reports `false` (not yet delivered). -/
def trySend {α : Type} (s : ChanState α) (e : α) : ChanState α × Bool :=
  if s.buf.length < s.cap then ({ s with buf := s.buf ++ [e] }, true)
  else ({ s with pending := s.pending ++ [e] }, false)

/-- Modelled from the spec: a receive takes the oldest buffered event and
unblocks exactly one suspended send, whose event occupies the freed slot. -/
def recvChan {α : Type} (s : ChanState α) : ChanState α × Option α :=
  match s.buf with
  | [] => (s, none)
  | e :: rest =>
    match s.pending with
    | [] => ({ s with buf := rest }, some e)
    | p :: ps => ({ s with buf := rest ++ [p], pending := ps }, some e)

def sendAll {α : Type} (s : ChanState α) : List α → ChanState α
  | [] => s
  | e :: es => sendAll (trySend s e).1 es

/-! ### Configuration, from `src/config.rs` -/

inductive Server
  | Primary
  | Backup
  | Custom (name : String)
deriving DecidableEq

/-- `Server::hostname` of `src/config.rs` lines 76-84. -/
def Server.hostname : Server → String
  | Server.Primary => "nwws-oi.weather.gov"
  | Server.Backup => "nwws-oi-md.weather.gov"
  | Server.Custom name => name

inductive Channel
  | Default
  | Custom (bare : String)
deriving DecidableEq

/-- `Channel::jid` of `src/config.rs` lines 99-110, with JIDs modelled as
strings: the room JID with the nickname as resource. -/
def Channel.jidStr : Channel → String → String
  | Channel.Default, nickname => "NWWS@conference.nwws-oi.weather.gov" ++ "/" ++ nickname
  | Channel.Custom bare, nickname => bare ++ "/" ++ nickname

structure Config where
  username : String
  password : String
  resource : String
  server : Server
  channel : Channel
deriving DecidableEq

/-- `From<(String, String)> for Config` of `src/config.rs` lines 48-58;
the freshly generated `Uuid::new_v4()` string is an explicit input. -/
def configFrom (username password uuid : String) : Config :=
  { username := username, password := password,
    resource := "uuid/" ++ uuid,
    server := Server.Primary, channel := Channel.Default }

end NwwsOi

namespace NwwsOi

/-! ### Lemmas about the scanners -/

lemma countNLNL_cons_ne (c : Char) (xs : List Char) (hc : c ≠ '\n') :
    countNLNL (c :: xs) = countNLNL xs := by
  cases xs with
  | nil => rfl
  | cons d rest => simp [countNLNL, hc]

lemma collapseNLNL_cons_ne (c : Char) (xs : List Char) (hc : c ≠ '\n') :
    collapseNLNL (c :: xs) = c :: collapseNLNL xs := by
  cases xs with
  | nil => rfl
  | cons d rest => simp [collapseNLNL, hc]

lemma countNL_doubleNL (b : List Char) : countNL (doubleNL b) = 2 * countNL b := by
  induction b with
  | nil => rfl
  | cons c rest ih =>
    by_cases hc : c = '\n'
    · simp [doubleNL, countNL, hc, ih]; ring
    · simp [doubleNL, countNL, hc, ih]

lemma countNLNL_doubleNL (b : List Char) : countNLNL (doubleNL b) = countNL b := by
  induction b with
  | nil => rfl
  | cons c rest ih =>
    by_cases hc : c = '\n'
    · simp [doubleNL, countNLNL, countNL, hc, ih]; ring
    · rw [doubleNL, if_neg hc, countNLNL_cons_ne c _ hc, ih, countNL, if_neg hc]
      ring

lemma collapseNLNL_doubleNL (b : List Char) : collapseNLNL (doubleNL b) = b := by
  induction b with
  | nil => rfl
  | cons c rest ih =>
    by_cases hc : c = '\n'
    · simp [doubleNL, collapseNLNL, hc, ih]
    · rw [doubleNL, if_neg hc, collapseNLNL_cons_ne c _ hc, ih]

/-! ### Lemmas about `splitFirstNL` and `ldmSplit` -/

lemma splitFirstNL_cons_nl (xs : List Char) : splitFirstNL ('\n' :: xs) = some ([], xs) := by
  rw [splitFirstNL, if_pos rfl]

lemma splitFirstNL_eq_some {m a b : List Char} (h : splitFirstNL m = some (a, b)) :
    m = a ++ '\n' :: b ∧ '\n' ∉ a := by
  induction m generalizing a with
  | nil => simp [splitFirstNL] at h
  | cons c rest ih =>
    by_cases hc : c = '\n'
    · rw [splitFirstNL, if_pos hc] at h
      simp only [Option.some.injEq, Prod.mk.injEq] at h
      obtain ⟨ha, hb⟩ := h
      subst hc; subst hb; subst ha
      simp
    · rw [splitFirstNL, if_neg hc] at h
      rcases h2 : splitFirstNL rest with _ | ⟨a', b'⟩
      · rw [h2] at h; simp at h
      · rw [h2] at h
        simp only [Option.map_some', Option.some.injEq, Prod.mk.injEq] at h
        obtain ⟨ha, hb⟩ := h
        obtain ⟨hrest, hnotin⟩ := ih (hb ▸ h2)
        subst ha
        constructor
        · simp [hrest]
        · simp only [List.mem_cons, not_or]
          exact ⟨fun h => hc h.symm, hnotin⟩

lemma splitFirstNL_append {a : List Char} (b : List Char) (ha : '\n' ∉ a) :
    splitFirstNL (a ++ '\n' :: b) = some (a, b) := by
  induction a with
  | nil => simp [splitFirstNL]
  | cons c rest ih =>
    simp only [List.mem_cons, not_or] at ha
    rw [List.cons_append, splitFirstNL, if_neg (fun h => ha.1 h.symm), ih ha.2]
    rfl

lemma ldmSplit_none {m : List Char} (h1 : splitFirstNL m = none) :
    ldmSplit m = (none, m) := by
  unfold ldmSplit
  rw [h1]

lemma ldmSplit_one {m p1 r1 : List Char} (h1 : splitFirstNL m = some (p1, r1))
    (h2 : splitFirstNL r1 = none) : ldmSplit m = (none, m) := by
  unfold ldmSplit
  simp only [h1, h2]

lemma ldmSplit_nonempty {m p1 r1 p2 rest : List Char}
    (h1 : splitFirstNL m = some (p1, r1)) (h2 : splitFirstNL r1 = some (p2, rest))
    (hp1 : p1 ≠ []) : ldmSplit m = (none, m) := by
  unfold ldmSplit
  simp only [h1, h2, if_neg hp1]

lemma ldmSplit_noparse {m p1 r1 p2 rest : List Char}
    (h1 : splitFirstNL m = some (p1, r1)) (h2 : splitFirstNL r1 = some (p2, rest))
    (hp1 : p1 = []) (h3 : parseU32 p2 = none) : ldmSplit m = (none, m) := by
  unfold ldmSplit
  simp only [h1, h2, if_pos hp1, h3]

lemma ldmSplit_parse {m p1 r1 p2 rest : List Char} {n : Nat}
    (h1 : splitFirstNL m = some (p1, r1)) (h2 : splitFirstNL r1 = some (p2, rest))
    (hp1 : p1 = []) (h3 : parseU32 p2 = some n) : ldmSplit m = (some n, rest) := by
  unfold ldmSplit
  simp only [h1, h2, if_pos hp1, h3]

/-! ### Lemmas about the decoder -/

lemma tryFromMessage_not_groupchat {pts : String → Option Int} {value : XmppMessage}
    (h : value.type_ ≠ MessageType.Groupchat) : tryFromMessage pts value = none := by
  unfold tryFromMessage
  simp [h]

lemma tryFromMessage_no_oi {pts : String → Option Int} {value : XmppMessage}
    (h : value.payloads.find? (fun p => p.isNamed "x" "nwws-oi") = none) :
    tryFromMessage pts value = none := by
  unfold tryFromMessage
  by_cases hG : value.type_ = MessageType.Groupchat
  · simp [hG, h]
  · simp [hG]

lemma tryFromMessage_groupchat (pts : String → Option Int) (value : XmppMessage)
    (oi : Element) (hG : value.type_ = MessageType.Groupchat)
    (hoi : value.payloads.find? (fun p => p.isNamed "x" "nwws-oi") = some oi) :
    tryFromMessage pts value =
      match oi.attr "awipsid", oi.attr "cccc", oi.attr "id",
          (oi.attr "issue").map pts, oi.attr "ttaaii" with
      | some awipsid, some cccc, some id, some (some issue), some ttaaii =>
        some { ttaaii := ttaaii, cccc := cccc,
               awips_id := if awipsid.length > 0 then some awipsid else none,
               issue := issue, id := id, delay_stamp := delayOf pts value,
               ldm_sequence_number := (ldmSplit (normalizeBody oi.body)).1,
               message := (ldmSplit (normalizeBody oi.body)).2 }
      | _, _, _, _, _ => none := by
  unfold tryFromMessage
  simp [hG, hoi]

lemma tryFromMessage_none_iff (pts : String → Option Int) (value : XmppMessage)
    (oi : Element) (hG : value.type_ = MessageType.Groupchat)
    (hoi : value.payloads.find? (fun p => p.isNamed "x" "nwws-oi") = some oi) :
    (tryFromMessage pts value = none ↔
      oi.attr "awipsid" = none ∨ oi.attr "cccc" = none ∨ oi.attr "id" = none ∨
      oi.attr "ttaaii" = none ∨ (oi.attr "issue").bind pts = none) := by
  rw [tryFromMessage_groupchat pts value oi hG hoi]
  rcases ha : oi.attr "awipsid" with _ | a
  · simp [ha]
  rcases hc : oi.attr "cccc" with _ | c
  · simp [ha, hc]
  rcases hi : oi.attr "id" with _ | i
  · simp [ha, hc, hi]
  rcases hs : oi.attr "issue" with _ | s
  · simp [ha, hc, hi, hs]
  rcases ht : oi.attr "ttaaii" with _ | t
  · simp [ha, hc, hi, hs, ht]
  rcases hp : pts s with _ | ts
  · simp [ha, hc, hi, hs, ht, hp]
  · simp [ha, hc, hi, hs, ht, hp]

lemma tryFromMessage_some_fields {pts : String → Option Int} {value : XmppMessage}
    {oi : Element} {b : Message} (hG : value.type_ = MessageType.Groupchat)
    (hoi : value.payloads.find? (fun p => p.isNamed "x" "nwws-oi") = some oi)
    (hb : tryFromMessage pts value = some b) :
    ∃ a c i s ts t, oi.attr "awipsid" = some a ∧ oi.attr "cccc" = some c ∧
      oi.attr "id" = some i ∧ oi.attr "issue" = some s ∧ pts s = some ts ∧
      oi.attr "ttaaii" = some t ∧
      b = { ttaaii := t, cccc := c,
            awips_id := if a.length > 0 then some a else none,
            issue := ts, id := i, delay_stamp := delayOf pts value,
            ldm_sequence_number := (ldmSplit (normalizeBody oi.body)).1,
            message := (ldmSplit (normalizeBody oi.body)).2 } := by
  rw [tryFromMessage_groupchat pts value oi hG hoi] at hb
  rcases ha : oi.attr "awipsid" with _ | a
  · simp [ha] at hb
  rcases hc : oi.attr "cccc" with _ | c
  · simp [ha, hc] at hb
  rcases hi : oi.attr "id" with _ | i
  · simp [ha, hc, hi] at hb
  rcases hs : oi.attr "issue" with _ | s
  · simp [ha, hc, hi, hs] at hb
  rcases ht : oi.attr "ttaaii" with _ | t
  · simp [ha, hc, hi, hs, ht] at hb
  rcases hp : pts s with _ | ts
  · simp [ha, hc, hi, hs, ht, hp] at hb
  · simp only [ha, hc, hi, hs, ht, hp, Option.map_some', Option.some.injEq] at hb
    exact ⟨a, c, i, s, ts, t, rfl, rfl, rfl, rfl, hp, rfl, hb.symm⟩

end NwwsOi

namespace NwwsOi

/-- C1: for a body in which every single newline was doubled, the count
condition holds and normalization collapses it back; when the count
condition fails the body passes through unchanged; when it holds the body
is rewritten by the single-pass replacement (never recursively). -/
theorem newline_normalization_c1 (m b : List Char) :
    normalizeBody (doubleNL b) = b ∧
    (countNL m ≠ 2 * countNLNL m → normalizeBody m = m) ∧
    (countNL m = 2 * countNLNL m → normalizeBody m = collapseNLNL m) := by
  refine ⟨?_, ?_, ?_⟩
  · have hcond : countNL (doubleNL b) = 2 * countNLNL (doubleNL b) := by
      rw [countNL_doubleNL, countNLNL_doubleNL]
    simp [normalizeBody, hcond, collapseNLNL_doubleNL]
  · intro h; simp [normalizeBody, h]
  · intro h; simp [normalizeBody, h]

/-- Witness for `newline_normalization_c1` at a concrete body. -/
theorem newline_normalization_c1_witness :
    normalizeBody (doubleNL ['a', '\n', 'b']) = ['a', '\n', 'b'] ∧
    countNL ['a', '\n', 'b'] ≠ 2 * countNLNL ['a', '\n', 'b'] ∧
    normalizeBody ['a', '\n', 'b'] = ['a', '\n', 'b'] := by
  have h := newline_normalization_c1 ['a', '\n', 'b'] ['a', '\n', 'b']
  exact ⟨h.1, by decide, h.2.1 (by decide)⟩

/-- C2: `ldmSplit` produces a sequence number `n` and body `rest` exactly
when the input body splits as an empty first line, a second line parsing as
a `u32`, and the remainder `rest`; on every other body it produces no
number and returns the body unmodified. -/
theorem ldm_sequence_extraction_c2 (m : List Char) :
    (∀ n rest, ldmSplit m = (some n, rest) ↔
       ∃ p2, m = '\n' :: p2 ++ '\n' :: rest ∧ '\n' ∉ p2 ∧ parseU32 p2 = some n) ∧
    ((ldmSplit m).1 = none → (ldmSplit m).2 = m) := by
  constructor
  · intro n rest
    constructor
    · intro h
      rcases h1 : splitFirstNL m with _ | ⟨p1, r1⟩
      · rw [ldmSplit_none h1] at h; simp at h
      · rcases h2 : splitFirstNL r1 with _ | ⟨p2, rest0⟩
        · rw [ldmSplit_one h1 h2] at h; simp at h
        · by_cases hp1 : p1 = []
          · rcases h3 : parseU32 p2 with _ | n0
            · rw [ldmSplit_noparse h1 h2 hp1 h3] at h; simp at h
            · rw [ldmSplit_parse h1 h2 hp1 h3] at h
              simp only [Prod.mk.injEq, Option.some.injEq] at h
              obtain ⟨hn, hrest⟩ := h
              obtain ⟨hm, -⟩ := splitFirstNL_eq_some h1
              obtain ⟨hr1, hnotin⟩ := splitFirstNL_eq_some h2
              subst hp1; subst hn; subst hrest
              exact ⟨p2, by simp [hm, hr1], hnotin, h3⟩
          · rw [ldmSplit_nonempty h1 h2 hp1] at h; simp at h
    · rintro ⟨p2, hm, hp2, hparse⟩
      rw [List.cons_append] at hm
      subst hm
      exact ldmSplit_parse (splitFirstNL_cons_nl _) (splitFirstNL_append rest hp2) rfl hparse
  · intro h
    rcases h1 : splitFirstNL m with _ | ⟨p1, r1⟩
    · rw [ldmSplit_none h1]
    · rcases h2 : splitFirstNL r1 with _ | ⟨p2, rest0⟩
      · rw [ldmSplit_one h1 h2]
      · by_cases hp1 : p1 = []
        · rcases h3 : parseU32 p2 with _ | n0
          · rw [ldmSplit_noparse h1 h2 hp1 h3]
          · rw [ldmSplit_parse h1 h2 hp1 h3] at h
            simp at h
        · rw [ldmSplit_nonempty h1 h2 hp1]

/-- Witness for `ldm_sequence_extraction_c2`: the body `"\n987\nBODY"`
yields sequence number 987 and body `"BODY"`; the body `"BODY"` is
unmodified. -/
theorem ldm_sequence_extraction_c2_witness :
    ldmSplit ('\n' :: ['9', '8', '7'] ++ '\n' :: ['B']) = (some 987, ['B']) ∧
    (ldmSplit ['B']).2 = ['B'] := by
  constructor
  · exact ((ldm_sequence_extraction_c2 ('\n' :: ['9', '8', '7'] ++ '\n' :: ['B'])).1
      987 ['B']).2 ⟨['9', '8', '7'], rfl, by decide, by decide⟩
  · exact (ldm_sequence_extraction_c2 ['B']).2 (by decide)

/-- C3: for a room-broadcast unit carrying the `nwws-oi` payload element,
the decoder rejects exactly when one of the five required attributes is
missing or the issue timestamp fails to parse; on success the attribute
values are preserved, with an empty `awipsid` normalized to absent and a
non-empty one kept verbatim. -/
theorem decoder_required_attributes_c3 (pts : String → Option Int) (value : XmppMessage)
    (oi : Element) (hG : value.type_ = MessageType.Groupchat)
    (hoi : value.payloads.find? (fun p => p.isNamed "x" "nwws-oi") = some oi) :
    (tryFromMessage pts value = none ↔
      oi.attr "awipsid" = none ∨ oi.attr "cccc" = none ∨ oi.attr "id" = none ∨
      oi.attr "ttaaii" = none ∨ (oi.attr "issue").bind pts = none) ∧
    (∀ b a c i s t, tryFromMessage pts value = some b →
      oi.attr "awipsid" = some a → oi.attr "cccc" = some c → oi.attr "id" = some i →
      oi.attr "issue" = some s → oi.attr "ttaaii" = some t →
      (b.awips_id = if a = "" then none else some a) ∧ b.cccc = c ∧ b.id = i ∧
      pts s = some b.issue ∧ b.ttaaii = t) := by
  refine ⟨tryFromMessage_none_iff pts value oi hG hoi, ?_⟩
  intro b a c i s t hb ha hc hi hs ht
  obtain ⟨a', c', i', s', ts', t', ha', hc', hi', hs', hp', ht', rfl⟩ :=
    tryFromMessage_some_fields hG hoi hb
  have hA : a = a' := by rw [ha] at ha'; exact Option.some.inj ha'
  have hC : c = c' := by rw [hc] at hc'; exact Option.some.inj hc'
  have hI : i = i' := by rw [hi] at hi'; exact Option.some.inj hi'
  have hS : s = s' := by rw [hs] at hs'; exact Option.some.inj hs'
  have hT : t = t' := by rw [ht] at ht'; exact Option.some.inj ht'
  refine ⟨?_, hC.symm, hI.symm, ?_, hT.symm⟩
  · rw [← hA]
    by_cases he : a = ""
    · subst he
      have h0 : ("" : String).length = 0 := rfl
      simp [h0]
    · have hlen : 0 < a.length := by
        rcases a with ⟨data⟩
        cases data with
        | nil => exact absurd (by decide) he
        | cons ch cs => simp [String.length]
      simp [if_neg he, if_pos hlen]
  · rw [hS]
    exact hp'

/-- Witness for `decoder_required_attributes_c3`: a broadcast unit whose
payload element lacks the `cccc` attribute is rejected. -/
theorem decoder_required_attributes_c3_witness :
    tryFromMessage pts0 xmsgMissing0 = none :=
  (decoder_required_attributes_c3 pts0 xmsgMissing0 oiMissing0 rfl (by decide)).1.mpr
    (Or.inr (Or.inl (by decide)))

/-- C4: the decoder rejects a unit whose subtype is not room broadcast,
rejects a unit lacking the `nwws-oi` payload element, and treats a delay
annotation whose timestamp fails to parse as an absent delay timestamp;
rejection is fully characterized without reference to the delay element. -/
theorem decoder_filters_c4 (pts : String → Option Int) (value : XmppMessage) :
    (value.type_ ≠ MessageType.Groupchat → tryFromMessage pts value = none) ∧
    (value.payloads.find? (fun p => p.isNamed "x" "nwws-oi") = none →
      tryFromMessage pts value = none) ∧
    (∀ d b, value.payloads.find? (fun p => p.isNamed "delay" "urn:xmpp:delay") = some d →
      (d.attr "stamp").bind pts = none →
      tryFromMessage pts value = some b → b.delay_stamp = none) ∧
    (tryFromMessage pts value = none ↔
      value.type_ ≠ MessageType.Groupchat ∨
      value.payloads.find? (fun p => p.isNamed "x" "nwws-oi") = none ∨
      ∃ oi, value.payloads.find? (fun p => p.isNamed "x" "nwws-oi") = some oi ∧
        (oi.attr "awipsid" = none ∨ oi.attr "cccc" = none ∨ oi.attr "id" = none ∨
         oi.attr "ttaaii" = none ∨ (oi.attr "issue").bind pts = none)) := by
  refine ⟨fun h => tryFromMessage_not_groupchat h, fun h => tryFromMessage_no_oi h, ?_, ?_⟩
  · intro d b hd hnone hb
    by_cases hG : value.type_ = MessageType.Groupchat
    · rcases hoi : value.payloads.find? (fun p => p.isNamed "x" "nwws-oi") with _ | oi
      · rw [tryFromMessage_no_oi hoi] at hb
        simp at hb
      · obtain ⟨a, c, i, s, ts, t, -, -, -, -, -, -, rfl⟩ :=
          tryFromMessage_some_fields hG hoi hb
        show delayOf pts value = none
        rw [delayOf, hd]
        simpa using hnone
    · rw [tryFromMessage_not_groupchat hG] at hb
      simp at hb
  · by_cases hG : value.type_ = MessageType.Groupchat
    · rcases hoi : value.payloads.find? (fun p => p.isNamed "x" "nwws-oi") with _ | oi
      · simp [tryFromMessage_no_oi hoi, hG, hoi]
      · rw [tryFromMessage_none_iff pts value oi hG hoi]
        constructor
        · intro h
          exact Or.inr (Or.inr ⟨oi, hoi, h⟩)
        · rintro (h | h | ⟨oi', hoi', h⟩)
          · exact absurd hG h
          · rw [hoi] at h
            simp at h
          · obtain rfl : oi' = oi := by rw [hoi] at hoi'; exact (Option.some.inj hoi').symm
            exact h
    · simp [tryFromMessage_not_groupchat hG, hG]

/-- Witness for `decoder_filters_c4`: a one-to-one chat unit is rejected. -/
theorem decoder_filters_c4_witness :
    tryFromMessage pts0 xmsgChat0 = none :=
  (decoder_filters_c4 pts0 xmsgChat0).1 (by decide)

/-- C5: a connect attempt failing with a Configuration or Credentials
classification makes the supervisor emit `Error`, then `Disconnected`,
then sleep 300 seconds; any other classification sleeps 10 seconds; the
unconditional 5-second floor sleep follows in either case, and the next
iteration's trace always begins with the `Connecting` emission. -/
theorem backoff_tiers_c5 (e : ConnErr) (rest : List AttemptOutcome) :
    (runTrace (AttemptOutcome.failed e :: rest) =
      TraceItem.emit (StreamEvent.connectionState ConnectionState.Connecting) ::
      TraceItem.emit (StreamEvent.error e) ::
      TraceItem.emit (StreamEvent.connectionState ConnectionState.Disconnected) ::
      TraceItem.sleep
        (if e = ConnErr.Configuration ∨ e = ConnErr.Credentials then 300 else 10) ::
      TraceItem.sleep 5 :: runTrace rest) ∧
    (∀ a rest2, ∃ t, runTrace (a :: rest2) =
      TraceItem.emit (StreamEvent.connectionState ConnectionState.Connecting) :: t) := by
  constructor
  · cases e <;> simp [runTrace, runOnceTrace, backoffSecs, minimumDelaySecs]
  · intro a rest2
    exact ⟨_, rfl⟩

/-- C6: a connect attempt hitting the 75-second timeout emits only
`Disconnected` — no `Error` event — then the floor sleep, before retrying. -/
theorem timeout_no_error_c6 (rest : List AttemptOutcome) :
    connectTimeoutSecs = 75 ∧
    (runTrace (AttemptOutcome.timedOut :: rest) =
      TraceItem.emit (StreamEvent.connectionState ConnectionState.Connecting) ::
      TraceItem.emit (StreamEvent.connectionState ConnectionState.Disconnected) ::
      TraceItem.sleep 5 :: runTrace rest) ∧
    (∀ e, TraceItem.emit (StreamEvent.error e) ∉ runOnceTrace AttemptOutcome.timedOut) := by
  refine ⟨rfl, by simp [runTrace, runOnceTrace, minimumDelaySecs], ?_⟩
  intro e
  simp [runOnceTrace]

lemma drainTrace_ok_fail (msgs : List Message) (e : ConnErr) (junk : List SessionItem) :
    drainTrace (msgs.map SessionItem.msg ++ SessionItem.fail e :: junk) =
      msgs.map (fun m => TraceItem.emit (StreamEvent.message m)) ++
      [TraceItem.emit (StreamEvent.error e),
       TraceItem.emit (StreamEvent.connectionState ConnectionState.Disconnected),
       TraceItem.spawnEnd] := by
  induction msgs with
  | nil => simp [drainTrace]
  | cons m ms ih => simp [drainTrace, ih]

/-- C8: while draining a session, every successful `next_unit` result is
emitted as a `Message` event in order; the first failure makes the
supervisor emit the `Error` event, then `Disconnected`, then spawn the
session teardown without awaiting it and return to the outer loop (whose
floor sleep and next `Connecting` follow). -/
theorem drain_behavior_c8 (msgs : List Message) (e : ConnErr) (junk : List SessionItem)
    (rest : List AttemptOutcome) :
    runTrace (AttemptOutcome.connected
        (msgs.map SessionItem.msg ++ SessionItem.fail e :: junk) :: rest) =
      TraceItem.emit (StreamEvent.connectionState ConnectionState.Connecting) ::
      TraceItem.emit (StreamEvent.connectionState ConnectionState.Connected) ::
      (msgs.map (fun m => TraceItem.emit (StreamEvent.message m)) ++
       TraceItem.emit (StreamEvent.error e) ::
       TraceItem.emit (StreamEvent.connectionState ConnectionState.Disconnected) ::
       TraceItem.spawnEnd ::
       TraceItem.sleep 5 :: runTrace rest) := by
  simp [runTrace, runOnceTrace, drainTrace_ok_fail, minimumDelaySecs]

lemma nextMessage_ret {pts : String → Option Int} {stz : List Stanza} {out : Message}
    (h : (nextMessage pts stz).2 = some out) :
    ∃ m, Stanza.msg m ∈ stz ∧ tryFromMessage pts m = some out := by
  induction stz with
  | nil => simp [nextMessage] at h
  | cons s rest ih =>
    cases s with
    | msg m =>
      rcases hm : tryFromMessage pts m with _ | out0
      · simp only [nextMessage, hm] at h
        obtain ⟨m', hmem, hdec⟩ := ih h
        exact ⟨m', List.mem_cons_of_mem _ hmem, hdec⟩
      · simp only [nextMessage, hm] at h
        simp at h
        subst h
        exact ⟨m, List.mem_cons_self _ _, hm⟩
    | iq q =>
      simp only [nextMessage] at h
      obtain ⟨m', hmem, hdec⟩ := ih h
      exact ⟨m', List.mem_cons_of_mem _ hmem, hdec⟩
    | presence =>
      simp only [nextMessage] at h
      obtain ⟨m', hmem, hdec⟩ := ih h
      exact ⟨m', List.mem_cons_of_mem _ hmem, hdec⟩
    | other =>
      simp only [nextMessage] at h
      obtain ⟨m', hmem, hdec⟩ := ih h
      exact ⟨m', List.mem_cons_of_mem _ hmem, hdec⟩

lemma nextMessage_sent {pts : String → Option Int} {stz : List Stanza} {r : Iq}
    (h : r ∈ (nextMessage pts stz).1) :
    ∃ q, Stanza.iq q ∈ stz ∧ (q.payload = IqPayload.get ∨ q.payload = IqPayload.set) ∧
      r = serviceUnavailableReply q := by
  induction stz with
  | nil => simp [nextMessage] at h
  | cons s rest ih =>
    cases s with
    | msg m =>
      rcases hm : tryFromMessage pts m with _ | out0
      · simp only [nextMessage, hm] at h
        obtain ⟨q, hq, hgs, hr⟩ := ih h
        exact ⟨q, List.mem_cons_of_mem _ hq, hgs, hr⟩
      · simp only [nextMessage, hm] at h
        simp at h
    | iq q0 =>
      simp only [nextMessage] at h
      rw [List.mem_append] at h
      rcases h with h | h
      · cases hpay : q0.payload with
        | get =>
          simp only [handleIq, hpay, List.mem_singleton] at h
          exact ⟨q0, List.mem_cons_self _ _, Or.inl hpay, h⟩
        | set =>
          simp only [handleIq, hpay, List.mem_singleton] at h
          exact ⟨q0, List.mem_cons_self _ _, Or.inr hpay, h⟩
        | result =>
          simp [handleIq, hpay] at h
        | err et cond =>
          simp [handleIq, hpay] at h
      · obtain ⟨q, hq, hgs, hr⟩ := ih h
        exact ⟨q, List.mem_cons_of_mem _ hq, hgs, hr⟩
    | presence =>
      simp only [nextMessage] at h
      obtain ⟨q, hq, hgs, hr⟩ := ih h
      exact ⟨q, List.mem_cons_of_mem _ hq, hgs, hr⟩
    | other =>
      simp only [nextMessage] at h
      obtain ⟨q, hq, hgs, hr⟩ := ih h
      exact ⟨q, List.mem_cons_of_mem _ hq, hgs, hr⟩

/-- C7: the receive loop returns to its caller only successfully decoded
bulletins; a message unit that fails to decode is skipped and the loop
continues; a get/set request is answered with an error reply carrying the
same id, from/to swapped, error type cancel and condition
service-unavailable, without being surfaced to the caller. -/
theorem next_unit_filtering_c7 (pts : String → Option Int) (stz : List Stanza) :
    (∀ out, (nextMessage pts stz).2 = some out →
      ∃ m, Stanza.msg m ∈ stz ∧ tryFromMessage pts m = some out) ∧
    (∀ m rest, tryFromMessage pts m = none →
      nextMessage pts (Stanza.msg m :: rest) = nextMessage pts rest) ∧
    (∀ r, r ∈ (nextMessage pts stz).1 →
      ∃ q, Stanza.iq q ∈ stz ∧ (q.payload = IqPayload.get ∨ q.payload = IqPayload.set) ∧
        r.id = q.id ∧ r.from_ = q.to_ ∧ r.to_ = q.from_ ∧
        r.payload = IqPayload.err "cancel" "service-unavailable") ∧
    (∀ q rest, (q.payload = IqPayload.get ∨ q.payload = IqPayload.set) →
      nextMessage pts (Stanza.iq q :: rest) =
        (serviceUnavailableReply q :: (nextMessage pts rest).1, (nextMessage pts rest).2)) := by
  refine ⟨fun out h => nextMessage_ret h, ?_, ?_, ?_⟩
  · intro m rest h
    simp only [nextMessage, h]
  · intro r h
    obtain ⟨q, hq, hgs, hr⟩ := nextMessage_sent h
    subst hr
    exact ⟨q, hq, hgs, rfl, rfl, rfl, rfl⟩
  · intro q rest hgs
    rcases hgs with h | h <;> simp [nextMessage, handleIq, h]

/-- Witness for `next_unit_filtering_c7`: a lone get request is answered
with the swapped service-unavailable reply and nothing is returned. -/
theorem next_unit_filtering_c7_witness :
    nextMessage pts0 [Stanza.iq iq0] = ([serviceUnavailableReply iq0], none) := by
  have h := (next_unit_filtering_c7 pts0 [Stanza.iq iq0]).2.2.2 iq0 [] (Or.inl rfl)
  simpa [nextMessage] using h

lemma sendAll_append {α : Type} (s : ChanState α) (xs ys : List α) :
    sendAll s (xs ++ ys) = sendAll (sendAll s xs) ys := by
  induction xs generalizing s with
  | nil => rfl
  | cons x xs ih => simp [sendAll, ih]

lemma sendAll_fits {α : Type} (cap : Nat) (buf es : List α)
    (h : buf.length + es.length ≤ cap) :
    sendAll ⟨cap, buf, []⟩ es = ⟨cap, buf ++ es, []⟩ := by
  induction es generalizing buf with
  | nil => simp [sendAll]
  | cons e es ih =>
    have hlt : buf.length < cap := by
      simp only [List.length_cons] at h
      omega
    have ht : (trySend (⟨cap, buf, []⟩ : ChanState α) e).1 = ⟨cap, buf ++ [e], []⟩ := by
      simp [trySend, hlt]
    have hfit : (buf ++ [e]).length + es.length ≤ cap := by
      simp at h ⊢
      omega
    rw [sendAll, ht, ih _ hfit]
    simp

lemma trySend_full {α : Type} (s : ChanState α) (e : α) (h : ¬s.buf.length < s.cap) :
    trySend s e = ({ s with pending := s.pending ++ [e] }, false) := by
  rw [trySend, if_neg h]

lemma sendAll_full_state {α : Type} (es : List α) (h : es.length = 33) :
    sendAll ⟨32, [], []⟩ es = ⟨32, es.take 32, es.drop 32⟩ := by
  have hsplit : es.take 32 ++ es.drop 32 = es := List.take_append_drop 32 es
  have hlen32 : (es.take 32).length = 32 := by
    rw [List.length_take]
    omega
  conv_lhs => rw [← hsplit]
  rw [sendAll_append, sendAll_fits 32 [] (es.take 32) (by simp [hlen32])]
  obtain ⟨x, hx⟩ : ∃ x, es.drop 32 = [x] := by
    have : (es.drop 32).length = 1 := by
      rw [List.length_drop, h]
    exact List.length_eq_one.mp this
  rw [hx, List.nil_append, sendAll, sendAll, trySend_full _ _ (by simp [hlen32])]
  simp

/-- C9: the supervisor's only outward channel has capacity 32; sending 33
events into the empty channel buffers the first 32 and suspends the 33rd
as pending; one receive returns the oldest event (FIFO) and unblocks
exactly the one pending send, leaving the remaining 32 events buffered in
emission order. -/
theorem channel_capacity_c9 (es : List StreamEvent) (h : es.length = 33) :
    streamChannelCapacity = 32 ∧
    (sendAll ⟨streamChannelCapacity, [], []⟩ es).buf = es.take 32 ∧
    (sendAll ⟨streamChannelCapacity, [], []⟩ es).pending = es.drop 32 ∧
    (∀ e0 tail, es = e0 :: tail →
      recvChan (sendAll ⟨streamChannelCapacity, [], []⟩ es) =
        (⟨streamChannelCapacity, tail, []⟩, some e0)) := by
  have key : sendAll ⟨streamChannelCapacity, [], []⟩ es = ⟨32, es.take 32, es.drop 32⟩ :=
    sendAll_full_state es h
  refine ⟨rfl, by rw [key], by rw [key], ?_⟩
  intro e0 tail hes
  subst hes
  obtain ⟨x, hx⟩ : ∃ x, tail.drop 31 = [x] := by
    have : (tail.drop 31).length = 1 := by
      simp only [List.length_cons] at h
      rw [List.length_drop]
      omega
    exact List.length_eq_one.mp this
  have htake : (e0 :: tail).take 32 = e0 :: tail.take 31 := rfl
  have hdrop : (e0 :: tail).drop 32 = tail.drop 31 := rfl
  rw [key, htake, hdrop, hx, recvChan]
  have htail : tail.take 31 ++ [x] = tail := by
    conv_rhs => rw [← List.take_append_drop 31 tail]
    rw [hx]
  simp only [htail]
  rfl

/-- Witness for `channel_capacity_c9` at 33 concrete events. -/
theorem channel_capacity_c9_witness :
    (List.replicate 33 (StreamEvent.connectionState ConnectionState.Connecting)).length
      = 33 ∧
    (sendAll ⟨streamChannelCapacity, [], []⟩
        (List.replicate 33 (StreamEvent.connectionState ConnectionState.Connecting))).pending
      = (List.replicate 33 (StreamEvent.connectionState ConnectionState.Connecting)).drop 32 := by
  refine ⟨by simp, ?_⟩
  exact (channel_capacity_c9 _ (by simp)).2.2.1

/-- C10: a `Config` built from a username/password pair defaults to the
primary server (hostname `nwws-oi.weather.gov`, backup
`nwws-oi-md.weather.gov`) and the default room
`NWWS@conference.nwws-oi.weather.gov`, and its resource is the string
`uuid/` followed by the generated UUID, so distinct UUIDs give distinct
resources. -/
theorem config_defaults_c10 (u p uuid uuid2 : String) :
    (configFrom u p uuid).server = Server.Primary ∧
    Server.hostname Server.Primary = "nwws-oi.weather.gov" ∧
    Server.hostname Server.Backup = "nwws-oi-md.weather.gov" ∧
    (configFrom u p uuid).channel = Channel.Default ∧
    (∀ nick, Channel.jidStr Channel.Default nick =
      "NWWS@conference.nwws-oi.weather.gov" ++ "/" ++ nick) ∧
    (configFrom u p uuid).resource = "uuid/" ++ uuid ∧
    (uuid ≠ uuid2 → (configFrom u p uuid).resource ≠ (configFrom u p uuid2).resource) := by
  refine ⟨rfl, rfl, rfl, rfl, fun nick => rfl, rfl, ?_⟩
  intro hne heq
  apply hne
  have heq2 : "uuid/" ++ uuid = "uuid/" ++ uuid2 := heq
  have hd := congrArg String.data heq2
  rw [String.data_append, String.data_append] at hd
  exact String.ext (List.append_cancel_left hd)

/-- Witness for `config_defaults_c10` at two distinct concrete UUIDs. -/
theorem config_defaults_c10_witness :
    "aaaa" ≠ "bbbb" ∧
    (configFrom "user" "pass" "aaaa").resource ≠ (configFrom "user" "pass" "bbbb").resource :=
  ⟨by decide, (config_defaults_c10 "user" "pass" "aaaa" "bbbb").2.2.2.2.2.2 (by decide)⟩

end NwwsOi
